import Mathlib

/-! Shallow embedding of `ml_metadata/query/filter_query_builder.cc`
(`FilterQueryBuilder<T>`), the filter-query compilation core of the
ml-metadata store: join-template catalog, alias registry, resolved-column
visitor and FROM/WHERE clause assembly.

The class header `filter_query_builder.h` is not part of the sources; the
pieces it declares (the `mentioned_alias_` container, `kBaseTableAlias`, the
`AtomType` enum) are modelled from the spec where noted.  Everything else is
translated directly from the `.cc` file.
-/

namespace MLMD

/-- The three node templates `FilterQueryBuilder<T>` is instantiated at
(`template class FilterQueryBuilder<Artifact/Execution/Context>;`). -/
inductive RecordKind
  | Artifact
  | Execution
  | Context
deriving DecidableEq, Repr

/-- Modelled from the spec: the `AtomType` enum is declared in the missing
header `filter_query_builder.h`; its members are those used by the `.cc`
(`ATTRIBUTE`, `CONTEXT`, `PROPERTY`, `CUSTOM_PROPERTY`, `PARENT_CONTEXT`,
`CHILD_CONTEXT`, `EVENT`). -/
inductive AtomType
  | ATTRIBUTE
  | CONTEXT
  | PROPERTY
  | CUSTOM_PROPERTY
  | PARENT_CONTEXT
  | CHILD_CONTEXT
  | EVENT
deriving DecidableEq, Repr

/-- Source `kTableAliasPrefix` ("The prefix for table alias in SQL clauses"). -/
def kTableAliasStem : String := "table_"

/-- Source `kBaseTableRef`: the static reference key of the base table. -/
def kBaseTableRef : String := ""

/-- Source `kTypeTableRef`: the static reference key of the type table. -/
def kTypeTableRef : String := "type"

/-- Modelled from the spec: `kBaseTableAlias` is declared in the missing
header.  Per the spec's alias scheme (a fixed stem concatenated with a
strictly increasing counter, the base binding pre-seeded before the counter
is first incremented) it is the stem with counter value 0. -/
def kBaseTableAlias : String := "table_0"

/-- Source `kTypeJoinTable` template ($0 base table, $1 type table, $2 type_kind). -/
def kTypeJoinTable : String :=
  "\nJOIN (\n  SELECT Type.id as type_id, Type.name as type\n  FROM Type\n  WHERE Type.type_kind = $2\n) AS $1 ON $0.type_id = $1.type_id "

/-- Source `kContextJoinTableViaAttribution` template. -/
def kContextJoinTableViaAttribution : String :=
  "\nJOIN (\n  SELECT Context.id, Context.name,\n         Type.name as type,\n         Attribution.artifact_id,\n         Context.create_time_since_epoch,\n         Context.last_update_time_since_epoch\n  FROM Context\n       JOIN Type ON Context.type_id = Type.id\n       JOIN Attribution ON Context.id = Attribution.context_id\n) AS $1 ON $0.id = $1.artifact_id "

/-- Source `kContextJoinTableViaAssociation` template. -/
def kContextJoinTableViaAssociation : String :=
  "\nJOIN (\n  SELECT Context.id, Context.name,\n         Type.name as type,\n         Association.execution_id,\n         Context.create_time_since_epoch,\n         Context.last_update_time_since_epoch\n\n  FROM Context\n       JOIN Type ON Context.type_id = Type.id\n       JOIN Association ON Context.id = Association.context_id\n) AS $1 ON $0.id = $1.execution_id "

/-- Source `kParentContextJoinTableViaParentContext` template. -/
def kParentContextJoinTableViaParentContext : String :=
  "\nJOIN (\n  SELECT Context.name,\n         Type.name as type,\n         ParentContext.context_id as child_context_id\n  FROM Context\n       JOIN Type ON Context.type_id = Type.id\n       JOIN ParentContext ON Context.id = ParentContext.parent_context_id\n) AS $1 ON $0.id = $1.child_context_id "

/-- Source `kChildContextJoinTableViaParentContext` template. -/
def kChildContextJoinTableViaParentContext : String :=
  "\nJOIN (\n  SELECT Context.name,\n         Type.name as type,\n         ParentContext.parent_context_id as parent_context_id\n  FROM Context\n       JOIN Type ON Context.type_id = Type.id\n       JOIN ParentContext ON Context.id = ParentContext.context_id\n) AS $1 ON $0.id = $1.parent_context_id "

/-- Source `kArtifactPropertyJoinTable` template ($2 property name, $3 is_custom). -/
def kArtifactPropertyJoinTable : String :=
  "\nJOIN (\n  SELECT artifact_id, int_value, double_value, string_value\n  FROM ArtifactProperty WHERE name = \"$2\" AND is_custom_property = $3\n) AS $1 ON $0.id = $1.artifact_id "

/-- Source `kExecutionPropertyJoinTable` template. -/
def kExecutionPropertyJoinTable : String :=
  "\nJOIN (\n  SELECT execution_id, int_value, double_value, string_value\n  FROM ExecutionProperty WHERE name = \"$2\" AND is_custom_property = $3\n) AS $1 ON $0.id = $1.execution_id "

/-- Source `kContextPropertyJoinTable` template. -/
def kContextPropertyJoinTable : String :=
  "\nJOIN (\n  SELECT context_id, int_value, double_value, string_value\n  FROM ContextProperty WHERE name = \"$2\" AND is_custom_property = $3\n) AS $1 ON $0.id = $1.context_id "

/-- Source `kArtifactEventJoinTable` template. -/
def kArtifactEventJoinTable : String :=
  "\nJOIN Event AS $1 ON $0.id = $1.artifact_id "

/-- Source `kExecutionEventJoinTable` template. -/
def kExecutionEventJoinTable : String :=
  "\nJOIN Event AS $1 ON $0.id = $1.execution_id "

/-- Character-level worker for `substitute` (positional `$0`..`$9`
placeholders, `$$` escape), modelling `absl::Substitute`. -/
def substituteChars : List Char → List String → List Char
  | [], _ => []
  | ['$'], _ => ['$']
  | '$' :: c :: rest, args =>
      if '0' ≤ c ∧ c ≤ '9' then
        (args.getD (c.toNat - '0'.toNat) "").data ++ substituteChars rest args
      else if c = '$' then '$' :: substituteChars rest args
      else '$' :: c :: substituteChars rest args
  | c :: rest, args => c :: substituteChars rest args

/-- Models `absl::Substitute` on a template and positional arguments. -/
def substitute (t : String) (args : List String) : String :=
  ⟨substituteChars t.data args⟩

/-- Models how `absl::Substitute` renders a `bool` argument as `true`/`false`. -/
def boolToStr (b : Bool) : String := if b then "true" else "false"

/-- Source `GetTypeKindValue<T>`.  Modelled from the spec: the `TypeKind` enum comes
from `metadata_store` sources that are not under `src/`; the claims only
need one discriminant value per record kind, so distinct placeholder
numerals are used. -/
def getTypeKindValue : RecordKind → Nat
  | .Artifact => 1
  | .Execution => 0
  | .Context => 2

/-- Source `GetContextJoinTemplate<T>`: for `Context` the source logs an error and
returns the empty string. -/
def getContextJoinTemplate : RecordKind → String
  | .Artifact => kContextJoinTableViaAttribution
  | .Execution => kContextJoinTableViaAssociation
  | .Context => ""

/-- Source `GetEventJoinTemplate<T>`: for `Context` the source logs an error and
returns the empty string. -/
def getEventJoinTemplate : RecordKind → String
  | .Artifact => kArtifactEventJoinTable
  | .Execution => kExecutionEventJoinTable
  | .Context => ""

/-- Source `GetPropertyJoinTableImpl<T>`. -/
def getPropertyJoinTableImpl (k : RecordKind) (baseAlias propertyAlias propertyName : String)
    (isCustomProperty : Bool) : String :=
  match k with
  | .Artifact =>
      substitute kArtifactPropertyJoinTable
        [baseAlias, propertyAlias, propertyName, boolToStr isCustomProperty]
  | .Execution =>
      substitute kExecutionPropertyJoinTable
        [baseAlias, propertyAlias, propertyName, boolToStr isCustomProperty]
  | .Context =>
      substitute kContextPropertyJoinTable
        [baseAlias, propertyAlias, propertyName, boolToStr isCustomProperty]

/-- Source `FilterQueryBuilder<T>::GetBaseNodeTable`. -/
def getBaseNodeTable (k : RecordKind) (baseAlias : String) : String :=
  match k with
  | .Artifact => "Artifact AS " ++ baseAlias ++ " "
  | .Execution => "Execution AS " ++ baseAlias ++ " "
  | .Context => "Context AS " ++ baseAlias ++ " "

/-- Source `FilterQueryBuilder<T>::GetTypeJoinTable`. -/
def getTypeJoinTable (k : RecordKind) (baseAlias typeAlias : String) : String :=
  substitute kTypeJoinTable [baseAlias, typeAlias, Nat.repr (getTypeKindValue k)]

/-- Source `FilterQueryBuilder<T>::GetContextJoinTable`. -/
def getContextJoinTable (k : RecordKind) (baseAlias contextAlias : String) : String :=
  substitute (getContextJoinTemplate k) [baseAlias, contextAlias]

/-- Source `FilterQueryBuilder<T>::GetParentContextJoinTable` (not dispatched on the
record kind in the source). -/
def getParentContextJoinTable (baseAlias parentContextAlias : String) : String :=
  substitute kParentContextJoinTableViaParentContext [baseAlias, parentContextAlias]

/-- Source `FilterQueryBuilder<T>::GetChildContextJoinTable` (not dispatched on the
record kind in the source). -/
def getChildContextJoinTable (baseAlias childContextAlias : String) : String :=
  substitute kChildContextJoinTableViaParentContext [baseAlias, childContextAlias]

/-- Source `FilterQueryBuilder<T>::GetPropertyJoinTable`. -/
def getPropertyJoinTable (k : RecordKind) (baseAlias propertyAlias propertyName : String) : String :=
  getPropertyJoinTableImpl k baseAlias propertyAlias propertyName false

/-- Source `FilterQueryBuilder<T>::GetCustomPropertyJoinTable`. -/
def getCustomPropertyJoinTable (k : RecordKind) (baseAlias propertyAlias propertyName : String) :
    String :=
  getPropertyJoinTableImpl k baseAlias propertyAlias propertyName true

/-- Source `FilterQueryBuilder<T>::GetEventJoinTable`. -/
def getEventJoinTable (k : RecordKind) (baseAlias eventAlias : String) : String :=
  substitute (getEventJoinTemplate k) [baseAlias, eventAlias]

/-- Structural prefix test on character lists, modelling `absl::StartsWith`. -/
def isPrefixList : List Char → List Char → Bool
  | [], _ => true
  | _ :: _, [] => false
  | p :: ps, c :: cs => p = c && isPrefixList ps cs

/-- Models `absl::StartsWith(s, piece)`. -/
def strStartsWith (s piece : String) : Bool :=
  isPrefixList piece.data s.data

/-- Models `std::string::substr(pos)` for ASCII strings (drop the first `n`
characters), as used on the alias-map keys in `GetFromClause`. -/
def strDrop (s : String) (n : Nat) : String :=
  ⟨s.data.drop n⟩

/-- One character of a plain SQL identifier. -/
def isIdentChar (c : Char) : Bool := c.isAlpha || c.isDigit || c = '_'

/-- Whether a character list is a plain SQL identifier shape. -/
def isPlainIdent : List Char → Bool
  | [] => false
  | c :: rest => (c.isAlpha || c = '_') && rest.all isIdentChar

/-- Models `zetasql::ToIdentifierLiteral`.  Modelled from the spec: zetasql is an
external library (not under `src/`); the spec only requires an
identifier-quoting convention, so a plain identifier passes through
unchanged and anything else is backquoted. -/
def toIdentifierLiteral (s : String) : String :=
  if isPlainIdent s.data then s else "`" ++ s ++ "`"

/-- Association-list lookup on an insertion-ordered alias map. -/
def lookupKey : List (String × String) → String → Option String
  | [], _ => none
  | (k, v) :: rest, key => if k = key then some v else lookupKey rest key

/-- The mutable state of one `FilterQueryBuilder` instance: `mentioned_alias_`
and `alias_index_`.  Modelled from the spec: the header's container type is
not under `src/`; per spec §4.4 each per-`AtomType` map iterates in insertion
order, so each is an insertion-ordered association list. -/
structure Builder where
  attributeAlias : List (String × String)
  contextAlias : List (String × String)
  propertyAlias : List (String × String)
  customPropertyAlias : List (String × String)
  parentContextAlias : List (String × String)
  childContextAlias : List (String × String)
  eventAlias : List (String × String)
  aliasIndex : Nat
deriving DecidableEq, Repr

/-- Source `mentioned_alias_[atom]`. -/
def Builder.get (st : Builder) : AtomType → List (String × String)
  | .ATTRIBUTE => st.attributeAlias
  | .CONTEXT => st.contextAlias
  | .PROPERTY => st.propertyAlias
  | .CUSTOM_PROPERTY => st.customPropertyAlias
  | .PARENT_CONTEXT => st.parentContextAlias
  | .CHILD_CONTEXT => st.childContextAlias
  | .EVENT => st.eventAlias

/-- Source `mentioned_alias_[atom][key] = v` for a key not yet present (insertion
appends in insertion-ordered maps). -/
def Builder.insertAtom (st : Builder) (a : AtomType) (key v : String) : Builder :=
  match a with
  | .ATTRIBUTE => { st with attributeAlias := st.attributeAlias ++ [(key, v)] }
  | .CONTEXT => { st with contextAlias := st.contextAlias ++ [(key, v)] }
  | .PROPERTY => { st with propertyAlias := st.propertyAlias ++ [(key, v)] }
  | .CUSTOM_PROPERTY => { st with customPropertyAlias := st.customPropertyAlias ++ [(key, v)] }
  | .PARENT_CONTEXT => { st with parentContextAlias := st.parentContextAlias ++ [(key, v)] }
  | .CHILD_CONTEXT => { st with childContextAlias := st.childContextAlias ++ [(key, v)] }
  | .EVENT => { st with eventAlias := st.eventAlias ++ [(key, v)] }

/-- Source `FilterQueryBuilder<T>::FilterQueryBuilder()`: seeds the base-table
binding `{kBaseTableRef, kBaseTableAlias}` under `ATTRIBUTE`. -/
def initBuilder : Builder :=
  { attributeAlias := [(kBaseTableRef, kBaseTableAlias)]
    contextAlias := []
    propertyAlias := []
    customPropertyAlias := []
    parentContextAlias := []
    childContextAlias := []
    eventAlias := []
    aliasIndex := 0 }

/-- The alias string minted for counter value `i`
(`absl::StrCat(kTableAliasPrefix, i)`). -/
def aliasName (i : Nat) : String :=
  kTableAliasStem ++ Nat.repr i

/-- Source `FilterQueryBuilder<T>::GetTableAlias`: mints
`StrCat(kTableAliasPrefix, ++alias_index_)` on first mention of
`(atom_type, concept_name)` and returns the identifier-quoted stored alias. -/
def getTableAlias (st : Builder) (a : AtomType) (key : String) : String × Builder :=
  match lookupKey (st.get a) key with
  | some v => (toIdentifierLiteral v, st)
  | none =>
      let idx := st.aliasIndex + 1
      let v := aliasName idx
      (toIdentifierLiteral v, { st.insertAtom a key v with aliasIndex := idx })

/-- A `zetasql::ResolvedExpressionColumn` as seen by the visitor: its declared
type collapsed to whether `node->type()->IsStruct()`, plus `node->name()`. -/
structure ColumnRef where
  isStruct : Bool
  name : String
deriving DecidableEq, Repr

/-- The message of the `absl::UnimplementedError` returned for a struct-typed
column with an unrecognized name. -/
def kUnimplementedMessage : String :=
  "context-executions and context-artifacts are not supported yet in filtering predicate."

/-- Source `FilterQueryBuilder<T>::VisitResolvedExpressionColumn`: returns the query
fragment pushed for the node together with the updated builder state, or the
unimplemented error. -/
def visitResolvedExpressionColumn (st : Builder) (node : ColumnRef) :
    Except String (String × Builder) :=
  if node.isStruct then
    let n := node.name
    if strStartsWith n "contexts_" then .ok (getTableAlias st .CONTEXT n)
    else if strStartsWith n "properties_" then .ok (getTableAlias st .PROPERTY n)
    else if strStartsWith n "custom_properties_" then .ok (getTableAlias st .CUSTOM_PROPERTY n)
    else if strStartsWith n "parent_contexts_" then .ok (getTableAlias st .PARENT_CONTEXT n)
    else if strStartsWith n "child_contexts_" then .ok (getTableAlias st .CHILD_CONTEXT n)
    else if strStartsWith n "events_" then .ok (getTableAlias st .EVENT n)
    else .error kUnimplementedMessage
  else
    if node.name ≠ "type" then
      let (a, st') := getTableAlias st .ATTRIBUTE kBaseTableRef
      .ok (a ++ "." ++ toIdentifierLiteral node.name, st')
    else
      let (a, st') := getTableAlias st .ATTRIBUTE kTypeTableRef
      .ok (a ++ "." ++ toIdentifierLiteral kTypeTableRef, st')

/-- A resolved predicate tree as handed over by the zetasql resolver: column
leaves plus literal/operator nodes rendered by the surrounding
`zetasql::SQLBuilder` machinery (external to this core). -/
inductive ResolvedExpr
  | column (c : ColumnRef)
  | literal (s : String)
  | unaryOp (op : String) (e : ResolvedExpr)
  | binaryOp (op : String) (l r : ResolvedExpr)
deriving DecidableEq, Repr

/-- Single left-to-right traversal of the resolved tree, rendering WHERE-body
text; only column leaves touch the builder state (the operator rendering
models the external `zetasql::SQLBuilder` pass-through of spec §6). -/
def visitExpr (st : Builder) : ResolvedExpr → Except String (String × Builder)
  | .column c => visitResolvedExpressionColumn st c
  | .literal s => .ok (s, st)
  | .unaryOp op e =>
      match visitExpr st e with
      | .error m => .error m
      | .ok (t, st') => .ok (op ++ "(" ++ t ++ ")", st')
  | .binaryOp op l r =>
      match visitExpr st l with
      | .error m => .error m
      | .ok (tl, st1) =>
          match visitExpr st1 r with
          | .error m => .error m
          | .ok (tr, st2) => .ok ("(" ++ tl ++ " " ++ op ++ " " ++ tr ++ ")", st2)

/-- The column leaves of a resolved tree in traversal (left-to-right) order. -/
def columnsOf : ResolvedExpr → List ColumnRef
  | .column c => [c]
  | .literal _ => []
  | .unaryOp _ e => columnsOf e
  | .binaryOp _ l r => columnsOf l ++ columnsOf r

/-- The per-column fragments pushed by the visitor along one traversal, with
the threaded builder state. -/
def visitColumns (st : Builder) : List ColumnRef → Except String (List String × Builder)
  | [] => .ok ([], st)
  | c :: rest =>
      match visitResolvedExpressionColumn st c with
      | .error m => .error m
      | .ok (f, st') =>
          match visitColumns st' rest with
          | .error m => .error m
          | .ok (fs, st'') => .ok (f :: fs, st'')

/-- The join entries `GetFromClause` iterates over, in its fixed category
order (type join, then CONTEXT, PROPERTY, CUSTOM_PROPERTY, PARENT_CONTEXT,
CHILD_CONTEXT, EVENT maps, each in insertion order): atom type, stored
concept key, stored alias. -/
def fromJoinEntries (st : Builder) : List (AtomType × String × String) :=
  (match lookupKey (st.get .ATTRIBUTE) kTypeTableRef with
   | some a => [(AtomType.ATTRIBUTE, kTypeTableRef, a)]
   | none => [])
  ++ (st.get .CONTEXT).map (fun e => (AtomType.CONTEXT, e.1, e.2))
  ++ (st.get .PROPERTY).map (fun e => (AtomType.PROPERTY, e.1, e.2))
  ++ (st.get .CUSTOM_PROPERTY).map (fun e => (AtomType.CUSTOM_PROPERTY, e.1, e.2))
  ++ (st.get .PARENT_CONTEXT).map (fun e => (AtomType.PARENT_CONTEXT, e.1, e.2))
  ++ (st.get .CHILD_CONTEXT).map (fun e => (AtomType.CHILD_CONTEXT, e.1, e.2))
  ++ (st.get .EVENT).map (fun e => (AtomType.EVENT, e.1, e.2))

/-- The join text `GetFromClause` appends for one entry: the type join for the
`ATTRIBUTE`/`kTypeTableRef` entry, the kind-dispatched context join, the
property joins with the stored key's prefix stripped by `substr`, the
parent/child context joins and the event join. -/
def renderJoinEntry (k : RecordKind) (baseAlias : String) :
    AtomType × String × String → String
  | (.ATTRIBUTE, _, a) => getTypeJoinTable k baseAlias a
  | (.CONTEXT, _, a) => getContextJoinTable k baseAlias a
  | (.PROPERTY, key, a) =>
      getPropertyJoinTable k baseAlias a (strDrop key ("properties_" : String).length)
  | (.CUSTOM_PROPERTY, key, a) =>
      getCustomPropertyJoinTable k baseAlias a
        (strDrop key ("custom_properties_" : String).length)
  | (.PARENT_CONTEXT, _, a) => getParentContextJoinTable baseAlias a
  | (.CHILD_CONTEXT, _, a) => getChildContextJoinTable baseAlias a
  | (.EVENT, _, a) => getEventJoinTable k baseAlias a

/-- Source `FilterQueryBuilder<T>::GetFromClause`: base node table, then one join
fragment per registered entry in the fixed category order. -/
def getFromClause (k : RecordKind) (st : Builder) : String :=
  let baseAlias := (lookupKey (st.get .ATTRIBUTE) kBaseTableRef).getD ""
  getBaseNodeTable k baseAlias
    ++ String.join ((fromJoinEntries st).map (renderJoinEntry k baseAlias))

/-- One whole compilation with a freshly constructed builder: translate the
tree (`GetWhereClause` text), then assemble `GetFromClause` from the final
registry state. -/
def compileFromBuilder (k : RecordKind) (st : Builder) (e : ResolvedExpr) :
    Except String (String × String) :=
  match visitExpr st e with
  | .error m => .error m
  | .ok (w, st') => .ok (getFromClause k st', w)

/-- Compilation as invoked per request: a fresh builder instance per call. -/
def compileQuery (k : RecordKind) (e : ResolvedExpr) : Except String (String × String) :=
  compileFromBuilder k initBuilder e

/-- The recognized struct-name dispatch of
`VisitResolvedExpressionColumn`, factored as a function from the column name
to the target `AtomType` (same test order as the source's if-chain). -/
def structAtomOf (n : String) : Option AtomType :=
  if strStartsWith n "contexts_" then some .CONTEXT
  else if strStartsWith n "properties_" then some .PROPERTY
  else if strStartsWith n "custom_properties_" then some .CUSTOM_PROPERTY
  else if strStartsWith n "parent_contexts_" then some .PARENT_CONTEXT
  else if strStartsWith n "child_contexts_" then some .CHILD_CONTEXT
  else if strStartsWith n "events_" then some .EVENT
  else none

/-- The join concept (registry slot) a column reference resolves to: struct
references map through the prefix dispatch keyed by their full name,
the reserved `type` pseudo-attribute maps to the type-table slot, and plain
attributes need no join. -/
def joinConceptOf (c : ColumnRef) : Option (AtomType × String) :=
  if c.isStruct then
    match structAtomOf c.name with
    | some a => some (a, c.name)
    | none => none
  else if c.name = "type" then some (AtomType.ATTRIBUTE, kTypeTableRef)
  else none

/-- The (atom, key) slots of the join entries the FROM clause will render. -/
def joinConcepts (st : Builder) : List (AtomType × String) :=
  (fromJoinEntries st).map (fun e => (e.1, e.2.1))

/-- Substring search on character lists (`needle` occurs inside `hay`). -/
def isInfixChars (needle : List Char) : List Char → Bool
  | [] => needle.isEmpty
  | c :: rest => isPrefixList needle (c :: rest) || isInfixChars needle rest

/-- Whether `sub` occurs as a contiguous substring of `s`. -/
def containsSub (s sub : String) : Bool :=
  isInfixChars sub.data s.data

/-- Whether a builder has an alias bound for the slot `(a, k)`. -/
def slotBound (st : Builder) (a : AtomType) (k : String) : Prop :=
  (lookupKey (st.get a) k).isSome = true

/-- The query fragment the visitor pushes for a column that resolves to a join
slot: the bare quoted alias for a struct reference, `<alias>.type` for the
reserved `type` pseudo-attribute. -/
def conceptFragment (c : ColumnRef) (v : String) : String :=
  if c.isStruct then toIdentifierLiteral v
  else toIdentifierLiteral v ++ "." ++ toIdentifierLiteral kTypeTableRef

/-- Invariant of every builder state reachable from construction: the
`ATTRIBUTE` map holds the pre-seeded base binding (possibly followed by the
type binding), per-map keys are distinct, every stored alias was minted from
a counter value bounded by `alias_index_`, aliases determine their slot
uniquely across all maps, and the property/custom-property maps only hold
keys carrying their `properties_`/`custom_properties_` prefix. -/
structure Inv (st : Builder) : Prop where
  attrShape : ∃ t, st.get .ATTRIBUTE = (kBaseTableRef, kBaseTableAlias) :: t ∧
      (t = [] ∨ ∃ a, t = [(kTypeTableRef, a)])
  keysNodup : ∀ a : AtomType, ((st.get a).map Prod.fst).Nodup
  aliasBound : ∀ a : AtomType, ∀ p ∈ st.get a, ∃ i, i ≤ st.aliasIndex ∧ p.2 = aliasName i
  aliasInj : ∀ a b : AtomType, ∀ p q, p ∈ st.get a → q ∈ st.get b → p.2 = q.2 →
      a = b ∧ p.1 = q.1
  propPfx : ∀ p ∈ st.get .PROPERTY, strStartsWith p.1 "properties_" = true
  customPfx : ∀ p ∈ st.get .CUSTOM_PROPERTY, strStartsWith p.1 "custom_properties_" = true

/-! Section: Decimal representation of the alias counter

`GetTableAlias` mints aliases with `absl::StrCat(kTableAliasPrefix,
++alias_index_)`, i.e. the decimal numeral of the counter.  The lemmas below
relate `Nat.repr` to `Nat.digits 10` and derive that distinct counter values
mint distinct alias strings. -/

/-- The big-endian decimal digit characters of `n`. -/
def decChars (n : Nat) : List Char :=
  (Nat.digits 10 n).reverse.map Nat.digitChar

theorem toDigitsCore_eq_decChars :
    ∀ (fuel n : Nat) (ds : List Char), n ≠ 0 → n ≤ fuel →
      Nat.toDigitsCore 10 fuel n ds = decChars n ++ ds := by
  intro fuel
  induction fuel with
  | zero => intro n ds h hle; omega
  | succ fuel ih =>
    intro n ds hn hle
    have hdig : Nat.digits 10 n = n % 10 :: Nat.digits 10 (n / 10) :=
      Nat.digits_def' (by norm_num) (Nat.pos_of_ne_zero hn)
    by_cases h10 : n / 10 = 0
    · have : decChars n = [Nat.digitChar (n % 10)] := by
        simp [decChars, hdig, h10]
      simp [Nat.toDigitsCore, h10, this]
    · have hle' : n / 10 ≤ fuel := by
        have : n / 10 < n := Nat.div_lt_self (Nat.pos_of_ne_zero hn) (by norm_num)
        omega
      have hsplit : decChars n = decChars (n / 10) ++ [Nat.digitChar (n % 10)] := by
        simp [decChars, hdig]
      simp [Nat.toDigitsCore, h10, ih (n / 10) (Nat.digitChar (n % 10) :: ds) h10 hle',
        hsplit]

theorem repr_eq_decChars (n : Nat) :
    Nat.repr n = if n = 0 then "0" else ⟨decChars n⟩ := by
  by_cases hn : n = 0
  · subst hn; rfl
  · simp only [hn, if_false]
    show (Nat.toDigits 10 n).asString = _
    rw [Nat.toDigits, toDigitsCore_eq_decChars (n + 1) n [] hn (by omega)]
    simp [List.asString]

theorem digitChar_inj_of_lt {a b : Nat} (ha : a < 10) (hb : b < 10)
    (h : Nat.digitChar a = Nat.digitChar b) : a = b := by
  have : ∀ x < 10, ∀ y < 10, Nat.digitChar x = Nat.digitChar y → x = y := by decide
  exact this a ha b hb h

theorem map_digitChar_inj :
    ∀ (l1 l2 : List Nat), (∀ x ∈ l1, x < 10) → (∀ x ∈ l2, x < 10) →
      l1.map Nat.digitChar = l2.map Nat.digitChar → l1 = l2
  | [], [], _, _, _ => rfl
  | [], _ :: _, _, _, h => by simp at h
  | _ :: _, [], _, _, h => by simp at h
  | a :: l1, b :: l2, h1, h2, h => by
      simp only [List.map_cons, List.cons.injEq] at h
      have ha := h1 a (by simp)
      have hb := h2 b (by simp)
      have htl := map_digitChar_inj l1 l2 (fun x hx => h1 x (by simp [hx]))
        (fun x hx => h2 x (by simp [hx])) h.2
      rw [digitChar_inj_of_lt ha hb h.1, htl]

theorem str_data_inj {s t : String} (h : s.data = t.data) : s = t := by
  cases s; cases t; cases h; rfl

theorem decChars_inj {m n : Nat} (h : decChars m = decChars n) : m = n := by
  have hm : ∀ x ∈ (Nat.digits 10 m).reverse, x < 10 := by
    intro x hx
    exact Nat.digits_lt_base (by norm_num) (List.mem_reverse.mp hx)
  have hn : ∀ x ∈ (Nat.digits 10 n).reverse, x < 10 := by
    intro x hx
    exact Nat.digits_lt_base (by norm_num) (List.mem_reverse.mp hx)
  have := map_digitChar_inj _ _ hm hn h
  have := List.reverse_injective this
  exact Nat.digits.injective 10 this

theorem decChars_eq_zero_chars {n : Nat} (h : decChars n = ['0']) : n = 0 := by
  have hbound : ∀ x ∈ (Nat.digits 10 n).reverse, x < 10 := fun x hx =>
    Nat.digits_lt_base (by norm_num) (List.mem_reverse.mp hx)
  have h0 : (['0'] : List Char) = [0].map Nat.digitChar := by decide
  have hrev : (Nat.digits 10 n).reverse = [0] :=
    map_digitChar_inj _ _ hbound (by decide) (by rw [← h0]; exact h)
  have hdig : Nat.digits 10 n = [0] := by
    have := congrArg List.reverse hrev
    simpa using this
  have := Nat.ofDigits_digits 10 n
  rw [hdig] at this
  simpa [Nat.ofDigits] using this.symm

theorem repr_injective : Function.Injective Nat.repr := by
  intro m n h
  rw [repr_eq_decChars, repr_eq_decChars] at h
  by_cases hm : m = 0 <;> by_cases hn : n = 0 <;> simp [hm, hn] at h ⊢
  · exact absurd (decChars_eq_zero_chars (congrArg String.data h).symm) hn
  · exact absurd (decChars_eq_zero_chars (congrArg String.data h)) hm
  · exact decChars_inj (congrArg String.data h)

theorem aliasName_inj {i j : Nat} (h : aliasName i = aliasName j) : i = j := by
  have hdata := congrArg String.data h
  simp only [aliasName, String.data_append] at hdata
  have : (Nat.repr i).data = (Nat.repr j).data := by
    exact List.append_cancel_left hdata
  exact repr_injective (str_data_inj this)

theorem repr_chars_ident {n : Nat} : ∀ c ∈ (Nat.repr n).data, isIdentChar c = true := by
  rw [repr_eq_decChars]
  by_cases hn : n = 0
  · subst hn; intro c hc; simp at hc; subst hc; decide
  · simp only [hn, if_false]
    intro c hc
    simp only [decChars, List.mem_map] at hc
    obtain ⟨d, hd, rfl⟩ := hc
    have hd10 : d < 10 := Nat.digits_lt_base (by norm_num) (List.mem_reverse.mp hd)
    have : ∀ x < 10, isIdentChar (Nat.digitChar x) = true := by decide
    exact this d hd10

theorem toIdentifierLiteral_aliasName (i : Nat) :
    toIdentifierLiteral (aliasName i) = aliasName i := by
  have hdata : (aliasName i).data =
      't' :: 'a' :: 'b' :: 'l' :: 'e' :: '_' :: (Nat.repr i).data := by
    show (kTableAliasStem ++ Nat.repr i).data = _
    rw [String.data_append]
    rfl
  have hplain : isPlainIdent (aliasName i).data = true := by
    rw [hdata]
    simp only [isPlainIdent, Bool.and_eq_true]
    refine ⟨by decide, ?_⟩
    rw [List.all_eq_true]
    intro c hc
    simp only [List.mem_cons] at hc
    rcases hc with rfl | rfl | rfl | rfl | rfl | hc
    · decide
    · decide
    · decide
    · decide
    · decide
    · exact repr_chars_ident c hc
  simp [toIdentifierLiteral, hplain]

theorem kBaseTableAlias_eq : kBaseTableAlias = aliasName 0 := by decide

/-! Section: Lookup and prefix lemmas -/

theorem lookupKey_append_of_some {l1 l2 : List (String × String)} {k v : String}
    (h : lookupKey l1 k = some v) : lookupKey (l1 ++ l2) k = some v := by
  induction l1 with
  | nil => simp [lookupKey] at h
  | cons p rest ih =>
      obtain ⟨k1, v1⟩ := p
      by_cases hk : k1 = k
      · simp only [lookupKey, if_pos hk, List.cons_append] at h ⊢
        exact h
      · simp only [lookupKey, if_neg hk, List.cons_append] at h ⊢
        exact ih h

theorem lookupKey_append_of_none {l1 l2 : List (String × String)} {k : String}
    (h : lookupKey l1 k = none) : lookupKey (l1 ++ l2) k = lookupKey l2 k := by
  induction l1 with
  | nil => simp
  | cons p rest ih =>
      obtain ⟨k1, v1⟩ := p
      by_cases hk : k1 = k
      · simp [lookupKey, if_pos hk] at h
      · simp only [lookupKey, if_neg hk, List.cons_append] at h ⊢
        exact ih h

theorem lookupKey_mem {l : List (String × String)} {k v : String}
    (h : lookupKey l k = some v) : (k, v) ∈ l := by
  induction l with
  | nil => simp [lookupKey] at h
  | cons p rest ih =>
      obtain ⟨k1, v1⟩ := p
      by_cases hk : k1 = k
      · subst hk
        simp only [lookupKey, if_pos rfl] at h
        injection h with hv
        subst hv
        exact List.mem_cons_self _ _
      · simp only [lookupKey, if_neg hk] at h
        exact List.mem_cons_of_mem _ (ih h)

theorem lookupKey_eq_none_iff {l : List (String × String)} {k : String} :
    lookupKey l k = none ↔ k ∉ l.map Prod.fst := by
  induction l with
  | nil => simp [lookupKey]
  | cons p rest ih =>
      obtain ⟨k1, v1⟩ := p
      by_cases hk : k1 = k
      · subst hk
        simp [lookupKey]
      · rw [show lookupKey ((k1, v1) :: rest) k = lookupKey rest k from by
          simp only [lookupKey, if_neg hk], ih]
        simp only [List.map_cons, List.mem_cons]
        constructor
        · intro h hmem
          rcases hmem with h1 | h1
          · exact hk h1.symm
          · exact h h1
        · intro h hm
          exact h (Or.inr hm)

theorem lookupKey_isSome_of_mem {l : List (String × String)} {k v : String}
    (h : (k, v) ∈ l) : (lookupKey l k).isSome = true := by
  cases hl : lookupKey l k with
  | some _ => rfl
  | none =>
      exfalso
      exact (lookupKey_eq_none_iff.mp hl) (List.mem_map.mpr ⟨(k, v), h, rfl⟩)

theorem isPrefixList_length {p s : List Char} (h : isPrefixList p s = true) :
    p.length ≤ s.length := by
  induction p generalizing s with
  | nil => simp
  | cons a p ih =>
      cases s with
      | nil => simp [isPrefixList] at h
      | cons b s =>
          simp only [isPrefixList, Bool.and_eq_true] at h
          simpa [Nat.succ_le_succ_iff] using ih h.2

theorem strStartsWith_length {s piece : String} (h : strStartsWith s piece = true) :
    piece.length ≤ s.length := by
  exact isPrefixList_length h

theorem isPrefixList_append (p rest : List Char) :
    isPrefixList p (p ++ rest) = true := by
  induction p with
  | nil => rfl
  | cons a p ih => simp [isPrefixList, ih]

theorem strStartsWith_append (pre rest : String) :
    strStartsWith (pre ++ rest) pre = true := by
  simp only [strStartsWith, String.data_append]
  exact isPrefixList_append _ _

theorem strDrop_append (pre rest : String) :
    strDrop (pre ++ rest) pre.length = rest := by
  apply str_data_inj
  simp only [strDrop, String.data_append]
  show List.drop pre.data.length (pre.data ++ rest.data) = rest.data
  simp

/-! Section: Builder state and `GetTableAlias` characterization -/

theorem get_insert_bump (st : Builder) (a b : AtomType) (key v : String) (i : Nat) :
    ({ st.insertAtom a key v with aliasIndex := i } : Builder).get b =
      if b = a then st.get b ++ [(key, v)] else st.get b := by
  cases a <;> cases b <;> simp [Builder.insertAtom, Builder.get]

theorem aliasIndex_insert_bump (st : Builder) (a : AtomType) (key v : String) (i : Nat) :
    ({ st.insertAtom a key v with aliasIndex := i } : Builder).aliasIndex = i := by
  cases a <;> rfl

theorem getTableAlias_found {st : Builder} {a : AtomType} {key v : String}
    (h : lookupKey (st.get a) key = some v) :
    getTableAlias st a key = (toIdentifierLiteral v, st) := by
  simp [getTableAlias, h]

theorem getTableAlias_fresh {st : Builder} {a : AtomType} {key : String}
    (h : lookupKey (st.get a) key = none) :
    getTableAlias st a key =
      (toIdentifierLiteral (aliasName (st.aliasIndex + 1)),
       { st.insertAtom a key (aliasName (st.aliasIndex + 1)) with
           aliasIndex := st.aliasIndex + 1 }) := by
  simp [getTableAlias, h]

/-! Section: Visitor case characterization -/

theorem visit_struct_eq (st : Builder) (n : String) :
    visitResolvedExpressionColumn st ⟨true, n⟩ =
      (match structAtomOf n with
       | some a => .ok (getTableAlias st a n)
       | none => .error kUnimplementedMessage) := by
  unfold visitResolvedExpressionColumn structAtomOf
  split_ifs <;> first | rfl | simp_all

theorem structAtomOf_ne_attribute {n : String} {a : AtomType}
    (h : structAtomOf n = some a) : a ≠ .ATTRIBUTE := by
  intro ha
  subst ha
  unfold structAtomOf at h
  split_ifs at h <;> simp_all

theorem structAtomOf_property {n : String}
    (h : structAtomOf n = some .PROPERTY) : strStartsWith n "properties_" = true := by
  unfold structAtomOf at h
  split_ifs at h <;> simp_all

theorem structAtomOf_custom_property {n : String}
    (h : structAtomOf n = some .CUSTOM_PROPERTY) :
    strStartsWith n "custom_properties_" = true := by
  unfold structAtomOf at h
  split_ifs at h <;> simp_all

theorem joinConceptOf_struct {n : String} {a : AtomType} {key : String}
    (h : joinConceptOf ⟨true, n⟩ = some (a, key)) :
    key = n ∧ structAtomOf n = some a := by
  simp only [joinConceptOf] at h
  cases hs : structAtomOf n with
  | none => simp [hs] at h
  | some a' =>
      simp only [hs] at h
      injection h with h'
      injection h' with h1 h2
      exact ⟨h2.symm, congrArg some h1⟩

theorem joinConceptOf_nonstruct {n : String} {a : AtomType} {key : String}
    (h : joinConceptOf ⟨false, n⟩ = some (a, key)) :
    n = "type" ∧ a = .ATTRIBUTE ∧ key = kTypeTableRef := by
  simp only [joinConceptOf] at h
  by_cases ht : n = "type"
  · simp only [ht, if_pos rfl] at h
    injection h with h'
    injection h' with h1 h2
    exact ⟨ht, h1.symm, h2.symm⟩
  · simp [ht] at h

theorem visitCol_concept_found {st : Builder} {c : ColumnRef} {a : AtomType} {key v : String}
    (h : joinConceptOf c = some (a, key)) (hv : lookupKey (st.get a) key = some v) :
    visitResolvedExpressionColumn st c = .ok (conceptFragment c v, st) := by
  obtain ⟨s, n⟩ := c
  cases s
  · obtain ⟨hn, ha, hk⟩ := joinConceptOf_nonstruct h
    subst hn; subst ha; subst hk
    simp only [visitResolvedExpressionColumn, conceptFragment]
    rw [getTableAlias_found hv]
    rfl
  · obtain ⟨hk, hs⟩ := joinConceptOf_struct h
    subst hk
    rw [visit_struct_eq, hs]
    show Except.ok (getTableAlias st a key) = _
    rw [getTableAlias_found hv]
    rfl

theorem visitCol_concept_fresh {st : Builder} {c : ColumnRef} {a : AtomType} {key : String}
    (h : joinConceptOf c = some (a, key)) (hv : lookupKey (st.get a) key = none) :
    visitResolvedExpressionColumn st c =
      .ok (conceptFragment c (aliasName (st.aliasIndex + 1)),
           { st.insertAtom a key (aliasName (st.aliasIndex + 1)) with
               aliasIndex := st.aliasIndex + 1 }) := by
  obtain ⟨s, n⟩ := c
  cases s
  · obtain ⟨hn, ha, hk⟩ := joinConceptOf_nonstruct h
    subst hn; subst ha; subst hk
    simp only [visitResolvedExpressionColumn, conceptFragment]
    rw [getTableAlias_fresh hv]
    rfl
  · obtain ⟨hk, hs⟩ := joinConceptOf_struct h
    subst hk
    rw [visit_struct_eq, hs]
    show Except.ok (getTableAlias st a key) = _
    rw [getTableAlias_fresh hv]
    rfl

theorem visitCol_attr {st : Builder} {c : ColumnRef} {v : String}
    (h1 : c.isStruct = false) (h2 : c.name ≠ "type")
    (hbase : lookupKey (st.get .ATTRIBUTE) kBaseTableRef = some v) :
    visitResolvedExpressionColumn st c =
      .ok (toIdentifierLiteral v ++ "." ++ toIdentifierLiteral c.name, st) := by
  obtain ⟨s, n⟩ := c
  cases s
  · simp only [visitResolvedExpressionColumn]
    simp only [ColumnRef.name] at h2 ⊢
    rw [if_neg (by simp), if_pos h2, getTableAlias_found hbase]
  · simp at h1

theorem visitCol_err {st : Builder} {c : ColumnRef}
    (h1 : c.isStruct = true) (h2 : structAtomOf c.name = none) :
    visitResolvedExpressionColumn st c = .error kUnimplementedMessage := by
  obtain ⟨s, n⟩ := c
  cases s
  · simp at h1
  · rw [visit_struct_eq, h2]

/-! Section: The registry invariant -/

theorem Inv.baseLookup {st : Builder} (h : Inv st) :
    lookupKey (st.get .ATTRIBUTE) kBaseTableRef = some kBaseTableAlias := by
  obtain ⟨t, ht, _⟩ := h.attrShape
  rw [ht]
  simp [lookupKey]

theorem Inv_init : Inv initBuilder := by
  refine ⟨⟨[], rfl, Or.inl rfl⟩, ?_, ?_, ?_, ?_, ?_⟩
  · intro a; cases a <;> simp [initBuilder, Builder.get]
  · intro a p hp
    cases a <;> simp [initBuilder, Builder.get] at hp
    exact ⟨0, Nat.le_refl 0, by rw [hp, kBaseTableAlias_eq]⟩
  · intro a b p q hp hq hpq
    cases a <;> cases b <;> simp [initBuilder, Builder.get] at hp hq
    exact ⟨rfl, by rw [hp, hq]⟩
  · intro p hp; simp [initBuilder, Builder.get] at hp
  · intro p hp; simp [initBuilder, Builder.get] at hp

theorem mem_insert_bump {st : Builder} {a : AtomType} {key v : String} {b : AtomType}
    {p : String × String}
    (hp : p ∈ ({ st.insertAtom a key v with aliasIndex := st.aliasIndex + 1 } : Builder).get b) :
    p ∈ st.get b ∨ (b = a ∧ p = (key, v)) := by
  rw [get_insert_bump] at hp
  by_cases hb : b = a
  · rw [if_pos hb] at hp
    rcases List.mem_append.mp hp with h | h
    · exact Or.inl h
    · simp only [List.mem_singleton] at h
      exact Or.inr ⟨hb, h⟩
  · rw [if_neg hb] at hp
    exact Or.inl hp

theorem Inv.insertFresh {st : Builder} (hInv : Inv st) {a : AtomType} {key : String}
    (hnone : lookupKey (st.get a) key = none)
    (hattr : a = .ATTRIBUTE → key = kTypeTableRef)
    (hprop : a = .PROPERTY → strStartsWith key "properties_" = true)
    (hcustom : a = .CUSTOM_PROPERTY → strStartsWith key "custom_properties_" = true) :
    Inv { st.insertAtom a key (aliasName (st.aliasIndex + 1)) with
            aliasIndex := st.aliasIndex + 1 } := by
  set v := aliasName (st.aliasIndex + 1) with hv
  refine ⟨?_, ?_, ?_, ?_, ?_, ?_⟩
  · obtain ⟨t, ht, hcase⟩ := hInv.attrShape
    by_cases hA : AtomType.ATTRIBUTE = a
    · have hkey := hattr hA.symm
      subst hkey
      rw [get_insert_bump, if_pos hA, ht]
      rcases hcase with rfl | ⟨a', rfl⟩
      · exact ⟨[(kTypeTableRef, v)], rfl, Or.inr ⟨v, rfl⟩⟩
      · exfalso
        rw [← hA, ht] at hnone
        simp [lookupKey, kBaseTableRef, kTypeTableRef] at hnone
    · rw [get_insert_bump, if_neg hA]
      exact ⟨t, ht, hcase⟩
  · intro b
    rw [get_insert_bump]
    by_cases hb : b = a
    · rw [if_pos hb, List.map_append]
      refine List.Nodup.append (hb ▸ hInv.keysNodup b) (by simp) ?_
      intro x hx hmem
      simp only [List.map_cons, List.map_nil, List.mem_singleton] at hmem
      subst hmem
      subst hb
      exact (lookupKey_eq_none_iff.mp hnone) hx
    · rw [if_neg hb]
      exact hInv.keysNodup b
  · intro b p hp
    rw [aliasIndex_insert_bump]
    rcases mem_insert_bump hp with h | ⟨hb, rfl⟩
    · obtain ⟨i, hi, hpi⟩ := hInv.aliasBound b p h
      exact ⟨i, by omega, hpi⟩
    · exact ⟨st.aliasIndex + 1, Nat.le_refl _, rfl⟩
  · intro b c p q hp hq hpq
    rcases mem_insert_bump hp with hpo | ⟨hb, rfl⟩ <;>
      rcases mem_insert_bump hq with hqo | ⟨hc, rfl⟩
    · exact hInv.aliasInj b c p q hpo hqo hpq
    · exfalso
      obtain ⟨i, hi, hpi⟩ := hInv.aliasBound b p hpo
      rw [hpi] at hpq
      have := aliasName_inj hpq
      omega
    · exfalso
      obtain ⟨i, hi, hqi⟩ := hInv.aliasBound c q hqo
      rw [hqi] at hpq
      have := aliasName_inj hpq
      omega
    · exact ⟨hb.trans hc.symm, rfl⟩
  · intro p hp
    rcases mem_insert_bump hp with h | ⟨hb, rfl⟩
    · exact hInv.propPfx p h
    · exact hprop hb.symm
  · intro p hp
    rcases mem_insert_bump hp with h | ⟨hb, rfl⟩
    · exact hInv.customPfx p h
    · exact hcustom hb.symm

theorem joinConceptOf_conditions {c : ColumnRef} {a : AtomType} {k : String}
    (hjc : joinConceptOf c = some (a, k)) :
    (a = .ATTRIBUTE → k = kTypeTableRef) ∧
    (a = .PROPERTY → strStartsWith k "properties_" = true) ∧
    (a = .CUSTOM_PROPERTY → strStartsWith k "custom_properties_" = true) := by
  obtain ⟨s, n⟩ := c
  cases s
  · obtain ⟨-, ha, hk⟩ := joinConceptOf_nonstruct hjc
    subst ha; subst hk
    exact ⟨fun _ => rfl, fun h => absurd h (by decide), fun h => absurd h (by decide)⟩
  · obtain ⟨hk, hs⟩ := joinConceptOf_struct hjc
    subst hk
    exact ⟨fun hA => absurd hA (structAtomOf_ne_attribute hs),
      fun hP => structAtomOf_property (hP ▸ hs),
      fun hC => structAtomOf_custom_property (hC ▸ hs)⟩

theorem lookup_insert_bump_other {st : Builder} {a : AtomType} {key v : String}
    {a' : AtomType} {k' : String} (hne : ¬(a' = a ∧ k' = key)) :
    lookupKey (({ st.insertAtom a key v with aliasIndex := st.aliasIndex + 1 } : Builder).get a')
        k' = lookupKey (st.get a') k' := by
  rw [get_insert_bump]
  by_cases ha : a' = a
  · rw [if_pos ha]
    have hk : k' ≠ key := fun hk => hne ⟨ha, hk⟩
    cases hl : lookupKey (st.get a') k' with
    | some w => exact lookupKey_append_of_some hl
    | none =>
        rw [lookupKey_append_of_none hl]
        simp only [lookupKey]
        rw [if_neg (fun h => hk h.symm)]
  · rw [if_neg ha]

/-- Full characterization of one successful visitor step: the invariant is
preserved, established bindings persist, the bound slots grow by exactly the
visited column's concept, and the pushed fragment is the stored alias
rendered for that column shape. -/
theorem visitCol_step {st st' : Builder} {c : ColumnRef} {f : String}
    (hInv : Inv st) (h : visitResolvedExpressionColumn st c = .ok (f, st')) :
    Inv st' ∧
    (∀ a k v, lookupKey (st.get a) k = some v → lookupKey (st'.get a) k = some v) ∧
    (∀ a k, slotBound st' a k ↔ (slotBound st a k ∨ joinConceptOf c = some (a, k))) ∧
    (∀ a k, joinConceptOf c = some (a, k) →
        ∃ v, lookupKey (st'.get a) k = some v ∧ f = conceptFragment c v) := by
  cases hjc : joinConceptOf c with
  | none =>
      have hcase : c.isStruct = false ∧ c.name ≠ "type" := by
        by_cases hstruct : c.isStruct = true
        · exfalso
          have hs : structAtomOf c.name = none := by
            cases hsa : structAtomOf c.name with
            | none => rfl
            | some a' =>
                obtain ⟨s, n⟩ := c
                simp only [ColumnRef.isStruct] at hstruct
                subst hstruct
                simp [joinConceptOf, hsa] at hjc
          rw [visitCol_err hstruct hs] at h
          cases h
        · have hsf : c.isStruct = false := by
            cases hs : c.isStruct
            · rfl
            · exact absurd hs hstruct
          refine ⟨hsf, ?_⟩
          intro htype
          obtain ⟨s, n⟩ := c
          simp only [ColumnRef.isStruct] at hsf
          subst hsf
          simp only [ColumnRef.name] at htype
          simp [joinConceptOf, htype] at hjc
      obtain ⟨hsf, htype⟩ := hcase
      rw [visitCol_attr hsf htype hInv.baseLookup] at h
      injection h with hpair
      injection hpair with hf hst
      subst hst
      refine ⟨hInv, fun a k v hv => hv, ?_, ?_⟩
      · intro a k
        simp
      · intro a k hak
        cases hak
  | some ak =>
      obtain ⟨a, k⟩ := ak
      cases hlk : lookupKey (st.get a) k with
      | some v =>
          rw [visitCol_concept_found hjc hlk] at h
          injection h with hpair
          injection hpair with hf hst
          subst hst
          refine ⟨hInv, fun a' k' v' hv => hv, ?_, ?_⟩
          · intro a' k'
            constructor
            · intro hb
              exact Or.inl hb
            · intro hb
              rcases hb with hb | hb
              · exact hb
              · injection hb with hb'
                injection hb' with h1 h2
                subst h1; subst h2
                simp [slotBound, hlk]
          · intro a' k' hak
            injection hak with hak'
            injection hak' with h1 h2
            subst h1; subst h2
            exact ⟨v, hlk, hf.symm⟩
      | none =>
          obtain ⟨hattr, hprop, hcustom⟩ := joinConceptOf_conditions hjc
          rw [visitCol_concept_fresh hjc hlk] at h
          injection h with hpair
          injection hpair with hf hst
          subst hst
          have hInv' := hInv.insertFresh hlk hattr hprop hcustom
          have hnew : lookupKey
              (({ st.insertAtom a k (aliasName (st.aliasIndex + 1)) with
                    aliasIndex := st.aliasIndex + 1 } : Builder).get a) k =
                some (aliasName (st.aliasIndex + 1)) := by
            rw [get_insert_bump, if_pos rfl, lookupKey_append_of_none hlk]
            simp [lookupKey]
          refine ⟨hInv', ?_, ?_, ?_⟩
          · intro a' k' v' hv
            by_cases heq : a' = a ∧ k' = k
            · exfalso
              obtain ⟨h1, h2⟩ := heq
              subst h1; subst h2
              rw [hv] at hlk
              cases hlk
            · rw [lookup_insert_bump_other heq]
              exact hv
          · intro a' k'
            by_cases heq : a' = a ∧ k' = k
            · obtain ⟨h1, h2⟩ := heq
              subst h1; subst h2
              constructor
              · intro _
                exact Or.inr rfl
              · intro _
                simp [slotBound, hnew]
            · have hlk' := @lookup_insert_bump_other st a k
                (aliasName (st.aliasIndex + 1)) a' k' heq
              constructor
              · intro hb
                exact Or.inl (by simpa [slotBound, hlk'] using hb)
              · intro hb
                rcases hb with hb | hb
                · simpa [slotBound, hlk'] using hb
                · exfalso
                  injection hb with hb'
                  injection hb' with h1 h2
                  exact heq ⟨h1.symm, h2.symm⟩
          · intro a' k' hak
            injection hak with hak'
            injection hak' with h1 h2
            subst h1; subst h2
            exact ⟨aliasName (st.aliasIndex + 1), hnew, hf.symm⟩



/-! Section: Whole-traversal soundness -/

/-- Soundness of one left-to-right pass over the column leaves: the invariant
is preserved, bindings persist, the bound slots at the end are the initial
ones plus exactly the concepts of the visited columns, and every pushed
fragment is the final stored alias of its column's concept rendered for the
column's shape. -/
theorem visitColumns_sound :
    ∀ (cols : List ColumnRef) (st : Builder) (frags : List String) (st' : Builder),
      Inv st → visitColumns st cols = .ok (frags, st') →
      Inv st' ∧
      (∀ a k v, lookupKey (st.get a) k = some v → lookupKey (st'.get a) k = some v) ∧
      (∀ a k, slotBound st' a k ↔
        (slotBound st a k ∨ ∃ c ∈ cols, joinConceptOf c = some (a, k))) ∧
      List.Forall₂ (fun c frag => ∀ a k, joinConceptOf c = some (a, k) →
        ∃ v, lookupKey (st'.get a) k = some v ∧ frag = conceptFragment c v) cols frags := by
  intro cols
  induction cols with
  | nil =>
      intro st frags st' hInv h
      simp only [visitColumns] at h
      injection h with hpair
      injection hpair with hf hst
      subst hst
      subst hf
      refine ⟨hInv, fun a k v hv => hv, ?_, List.Forall₂.nil⟩
      intro a k
      simp
  | cons c rest ih =>
      intro st frags st' hInv h
      cases hvc : visitResolvedExpressionColumn st c with
      | error m => simp [visitColumns, hvc] at h
      | ok p =>
          obtain ⟨f, st1⟩ := p
          cases hvr : visitColumns st1 rest with
          | error m => simp [visitColumns, hvc, hvr] at h
          | ok q =>
              obtain ⟨fs, st2⟩ := q
              simp only [visitColumns, hvc, hvr] at h
              injection h with hpair
              injection hpair with hf hst
              subst hst
              subst hf
              obtain ⟨hInv1, hpres1, hslot1, hfrag1⟩ := visitCol_step hInv hvc
              obtain ⟨hInv', hpres2, hslot2, hforall⟩ := ih st1 fs st2 hInv1 hvr
              refine ⟨hInv', fun a k v hv => hpres2 a k v (hpres1 a k v hv), ?_, ?_⟩
              · intro a k
                rw [hslot2, hslot1]
                constructor
                · rintro ((hs | hc) | ⟨c', hc', hjc'⟩)
                  · exact Or.inl hs
                  · exact Or.inr ⟨c, List.mem_cons_self _ _, hc⟩
                  · exact Or.inr ⟨c', List.mem_cons_of_mem _ hc', hjc'⟩
                · rintro (hs | ⟨c', hc', hjc'⟩)
                  · exact Or.inl (Or.inl hs)
                  · rcases List.mem_cons.mp hc' with rfl | hmem
                    · exact Or.inl (Or.inr hjc')
                    · exact Or.inr ⟨c', hmem, hjc'⟩
              · refine List.Forall₂.cons ?_ hforall
                intro a k hjc
                obtain ⟨v, hv, hfv⟩ := hfrag1 a k hjc
                exact ⟨v, hpres2 a k v hv, hfv⟩

theorem visitColumns_append :
    ∀ {l1 l2 : List ColumnRef} {st st1 st2 : Builder} {f1 f2 : List String},
      visitColumns st l1 = .ok (f1, st1) → visitColumns st1 l2 = .ok (f2, st2) →
      visitColumns st (l1 ++ l2) = .ok (f1 ++ f2, st2) := by
  intro l1
  induction l1 with
  | nil =>
      intro l2 st st1 st2 f1 f2 h1 h2
      simp only [visitColumns] at h1
      injection h1 with hpair
      injection hpair with hf hst
      subst hst
      subst hf
      simpa using h2
  | cons c rest ih =>
      intro l2 st st1 st2 f1 f2 h1 h2
      cases hvc : visitResolvedExpressionColumn st c with
      | error m => simp [visitColumns, hvc] at h1
      | ok p =>
          obtain ⟨f, stc⟩ := p
          cases hvr : visitColumns stc rest with
          | error m => simp [visitColumns, hvc, hvr] at h1
          | ok q =>
              obtain ⟨fs, str⟩ := q
              simp only [visitColumns, hvc, hvr] at h1
              injection h1 with hpair
              injection hpair with hf hst
              subst hst
              subst hf
              have hih := ih hvr h2
              simp only [List.cons_append, visitColumns, hvc, List.append_eq, hih]

/-- One tree traversal and the flat traversal of its column leaves reach the
same final registry state. -/
theorem visitExpr_columns :
    ∀ (e : ResolvedExpr) (st st' : Builder) (t : String),
      visitExpr st e = .ok (t, st') →
      ∃ frags, visitColumns st (columnsOf e) = .ok (frags, st') := by
  intro e
  induction e with
  | column c =>
      intro st st' t h
      simp only [visitExpr] at h
      refine ⟨[t], ?_⟩
      simp only [columnsOf, visitColumns, h]
  | literal s =>
      intro st st' t h
      simp only [visitExpr] at h
      injection h with hpair
      injection hpair with hf hst
      subst hst
      exact ⟨[], rfl⟩
  | unaryOp op e ihe =>
      intro st st' t h
      cases he : visitExpr st e with
      | error m => simp [visitExpr, he] at h
      | ok p =>
          obtain ⟨te, ste⟩ := p
          simp only [visitExpr, he] at h
          injection h with hpair
          injection hpair with hf hst
          subst hst
          exact ihe st _ te he
  | binaryOp op l r ihl ihr =>
      intro st st' t h
      cases hl : visitExpr st l with
      | error m => simp [visitExpr, hl] at h
      | ok p =>
          obtain ⟨tl, stl⟩ := p
          cases hr : visitExpr stl r with
          | error m => simp [visitExpr, hl, hr] at h
          | ok q =>
              obtain ⟨tr, str⟩ := q
              simp only [visitExpr, hl, hr] at h
              injection h with hpair
              injection hpair with hf hst
              subst hst
              obtain ⟨fl, hfl⟩ := ihl st stl tl hl
              obtain ⟨fr, hfr⟩ := ihr stl str tr hr
              refine ⟨fl ++ fr, ?_⟩
              simp only [columnsOf]
              exact visitColumns_append hfl hfr

theorem visitCol_error_msg {st : Builder} {c : ColumnRef} {m : String}
    (h : visitResolvedExpressionColumn st c = .error m) : m = kUnimplementedMessage := by
  obtain ⟨s, n⟩ := c
  cases s
  · by_cases ht : n = "type"
    · subst ht
      simp [visitResolvedExpressionColumn] at h
    · simp [visitResolvedExpressionColumn, ht] at h
  · rw [visit_struct_eq] at h
    cases hs : structAtomOf n with
    | some a => rw [hs] at h; cases h
    | none =>
        rw [hs] at h
        injection h with hm
        exact hm.symm

theorem visitExpr_error_msg :
    ∀ (e : ResolvedExpr) (st : Builder) (m : String),
      visitExpr st e = .error m → m = kUnimplementedMessage := by
  intro e
  induction e with
  | column c =>
      intro st m h
      exact visitCol_error_msg h
  | literal s =>
      intro st m h
      simp [visitExpr] at h
  | unaryOp op e ihe =>
      intro st m h
      cases he : visitExpr st e with
      | error m2 =>
          simp only [visitExpr, he] at h
          injection h with hm
          rw [← hm]
          exact ihe st m2 he
      | ok p => simp [visitExpr, he] at h
  | binaryOp op l r ihl ihr =>
      intro st m h
      cases hl : visitExpr st l with
      | error m2 =>
          simp only [visitExpr, hl] at h
          injection h with hm
          rw [← hm]
          exact ihl st m2 hl
      | ok p =>
          obtain ⟨tl, stl⟩ := p
          cases hr : visitExpr stl r with
          | error m2 =>
              simp only [visitExpr, hl, hr] at h
              injection h with hm
              rw [← hm]
              exact ihr stl m2 hr
          | ok q => simp [visitExpr, hl, hr] at h

/-- A struct-typed column leaf whose name carries no recognized relationship
stem makes the whole traversal fail with the unimplemented error, from any
starting state. -/
theorem visitExpr_error_of_badcol :
    ∀ (e : ResolvedExpr) (st : Builder) (c : ColumnRef),
      c ∈ columnsOf e → c.isStruct = true → structAtomOf c.name = none →
      visitExpr st e = .error kUnimplementedMessage := by
  intro e
  induction e with
  | column c' =>
      intro st c hc hs hn
      simp only [columnsOf, List.mem_singleton] at hc
      subst hc
      exact visitCol_err hs hn
  | literal s =>
      intro st c hc hs hn
      simp [columnsOf] at hc
  | unaryOp op e ihe =>
      intro st c hc hs hn
      simp only [columnsOf] at hc
      simp [visitExpr, ihe st c hc hs hn]
  | binaryOp op l r ihl ihr =>
      intro st c hc hs hn
      simp only [columnsOf, List.mem_append] at hc
      rcases hc with hc | hc
      · simp [visitExpr, ihl st c hc hs hn]
      · cases hvl : visitExpr st l with
        | error m =>
            have hm := visitExpr_error_msg l st m hvl
            subst hm
            simp [visitExpr, hvl]
        | ok p =>
            obtain ⟨tl, stl⟩ := p
            simp [visitExpr, hvl, ihr stl c hc hs hn]


/-! Section: The rendered join entries, membership and distinctness -/

theorem tagSeg_nodup (a : AtomType) (l : List (String × String))
    (h : (l.map Prod.fst).Nodup) : (l.map (fun e => (a, e.1))).Nodup := by
  have hrw : l.map (fun e => (a, e.1)) = (l.map Prod.fst).map (fun k => (a, k)) := by
    simp [List.map_map]
  rw [hrw]
  exact h.map (fun x y hxy => congrArg Prod.snd hxy)

theorem tagSeg_mem_fst {a : AtomType} {l : List (String × String)} {x : AtomType × String}
    (h : x ∈ l.map (fun e => (a, e.1))) : x.1 = a := by
  obtain ⟨p, hp, rfl⟩ := List.mem_map.mp h
  rfl

theorem tagged_join_nodup :
    ∀ (atoms : List AtomType), atoms.Nodup →
      ∀ (f : AtomType → List (String × String)), (∀ a, ((f a).map Prod.fst).Nodup) →
      ((atoms.map (fun a => (f a).map (fun e => (a, e.1)))).join).Nodup := by
  intro atoms
  induction atoms with
  | nil => intro _ f _; simp
  | cons a rest ih =>
      intro hnd f hf
      simp only [List.map_cons, List.join_cons]
      refine List.Nodup.append (tagSeg_nodup a (f a) (hf a))
        (ih (List.nodup_cons.mp hnd).2 f hf) ?_
      intro x hxa hxrest
      have h1 : x.1 = a := tagSeg_mem_fst hxa
      have h2 : x.1 ∈ rest := by
        rcases List.mem_join.mp hxrest with ⟨l, hl, hxl⟩
        rcases List.mem_map.mp hl with ⟨b, hb, rfl⟩
        rw [tagSeg_mem_fst hxl]
        exact hb
      rw [h1] at h2
      exact (List.nodup_cons.mp hnd).1 h2

theorem joinConcepts_form (st : Builder) :
    joinConcepts st =
      (match lookupKey (st.get .ATTRIBUTE) kTypeTableRef with
       | some _ => [(AtomType.ATTRIBUTE, kTypeTableRef)]
       | none => []) ++
      (([AtomType.CONTEXT, .PROPERTY, .CUSTOM_PROPERTY, .PARENT_CONTEXT, .CHILD_CONTEXT,
          .EVENT].map (fun a => (st.get a).map (fun e => (a, e.1)))).join) := by
  cases hty : lookupKey (st.get .ATTRIBUTE) kTypeTableRef <;>
    simp [joinConcepts, fromJoinEntries, hty, List.map_append, List.map_map,
      Function.comp_def, List.append_assoc]

theorem joinConcepts_nodup {st : Builder} (hInv : Inv st) : (joinConcepts st).Nodup := by
  rw [joinConcepts_form]
  have htail := tagged_join_nodup
    [AtomType.CONTEXT, .PROPERTY, .CUSTOM_PROPERTY, .PARENT_CONTEXT, .CHILD_CONTEXT, .EVENT]
    (by decide) st.get (fun a => hInv.keysNodup a)
  cases hty : lookupKey (st.get .ATTRIBUTE) kTypeTableRef with
  | none => simpa using htail
  | some ta =>
      refine List.Nodup.append (by simp) htail ?_
      intro x hx hxj
      simp only [List.mem_singleton] at hx
      subst hx
      rcases List.mem_join.mp hxj with ⟨l, hl, hxl⟩
      rcases List.mem_map.mp hl with ⟨b, hb, rfl⟩
      have hfst := tagSeg_mem_fst hxl
      rw [← hfst] at hb
      revert hb
      decide

theorem mem_fromJoinEntries {st : Builder} {e : AtomType × String × String}
    (h : e ∈ fromJoinEntries st) :
    (e.2.1, e.2.2) ∈ st.get e.1 ∧ (e.1 = .ATTRIBUTE → e.2.1 = kTypeTableRef) := by
  cases hty : lookupKey (st.get .ATTRIBUTE) kTypeTableRef with
  | some ta =>
      simp only [fromJoinEntries, hty, List.mem_append, List.mem_singleton,
        List.mem_map] at h
      rcases h with ((((((h | h) | h) | h) | h) | h) | h)
      · subst h
        exact ⟨lookupKey_mem hty, fun _ => rfl⟩
      all_goals
        obtain ⟨p, hp, rfl⟩ := h
        exact ⟨hp, fun hA => AtomType.noConfusion hA⟩
  | none =>
      simp only [fromJoinEntries, hty, List.nil_append, List.mem_append,
        List.mem_map] at h
      rcases h with (((((h | h) | h) | h) | h) | h)
      all_goals
        obtain ⟨p, hp, rfl⟩ := h
        exact ⟨hp, fun hA => AtomType.noConfusion hA⟩

theorem mem_joinConcepts {st : Builder} {a : AtomType} {k : String} :
    (a, k) ∈ joinConcepts st ↔
      (slotBound st a k ∧ (a = .ATTRIBUTE → k = kTypeTableRef)) := by
  constructor
  · intro h
    obtain ⟨e, he, heq⟩ := List.mem_map.mp h
    obtain ⟨hmem, himp⟩ := mem_fromJoinEntries he
    have h1 : e.1 = a := congrArg Prod.fst heq
    have h2 : e.2.1 = k := congrArg Prod.snd heq
    subst h1
    subst h2
    exact ⟨lookupKey_isSome_of_mem hmem, himp⟩
  · rintro ⟨hsb, himp⟩
    simp only [slotBound, Option.isSome_iff_exists] at hsb
    obtain ⟨v, hv⟩ := hsb
    have hmem := lookupKey_mem hv
    cases a with
    | ATTRIBUTE =>
        have hk := himp rfl
        subst hk
        simp [joinConcepts, fromJoinEntries, hv]
    | CONTEXT =>
        simp only [joinConcepts, fromJoinEntries, List.map_append, List.mem_append,
          List.map_map, List.mem_map]
        refine Or.inl (Or.inl (Or.inl (Or.inl (Or.inl (Or.inr ⟨(k, v), hmem, rfl⟩)))))
    | PROPERTY =>
        simp only [joinConcepts, fromJoinEntries, List.map_append, List.mem_append,
          List.map_map, List.mem_map]
        refine Or.inl (Or.inl (Or.inl (Or.inl (Or.inr ⟨(k, v), hmem, rfl⟩))))
    | CUSTOM_PROPERTY =>
        simp only [joinConcepts, fromJoinEntries, List.map_append, List.mem_append,
          List.map_map, List.mem_map]
        refine Or.inl (Or.inl (Or.inl (Or.inr ⟨(k, v), hmem, rfl⟩)))
    | PARENT_CONTEXT =>
        simp only [joinConcepts, fromJoinEntries, List.map_append, List.mem_append,
          List.map_map, List.mem_map]
        refine Or.inl (Or.inl (Or.inr ⟨(k, v), hmem, rfl⟩))
    | CHILD_CONTEXT =>
        simp only [joinConcepts, fromJoinEntries, List.map_append, List.mem_append,
          List.map_map, List.mem_map]
        refine Or.inl (Or.inr ⟨(k, v), hmem, rfl⟩)
    | EVENT =>
        simp only [joinConcepts, fromJoinEntries, List.map_append, List.mem_append,
          List.map_map, List.mem_map]
        exact Or.inr ⟨(k, v), hmem, rfl⟩

theorem aliases_nodup {st : Builder} (hInv : Inv st) :
    (kBaseTableAlias :: (fromJoinEntries st).map (fun e => e.2.2)).Nodup := by
  have hnd : (fromJoinEntries st).Nodup := (joinConcepts_nodup hInv).of_map _
  have hmap : ((fromJoinEntries st).map (fun e => e.2.2)).Nodup := by
    refine List.Nodup.map_on ?_ hnd
    intro x hx y hy hxy
    obtain ⟨hx1, _⟩ := mem_fromJoinEntries hx
    obtain ⟨hy1, _⟩ := mem_fromJoinEntries hy
    obtain ⟨hab, hkey⟩ := hInv.aliasInj x.1 y.1 (x.2.1, x.2.2) (y.2.1, y.2.2) hx1 hy1 hxy
    exact Prod.ext hab (Prod.ext hkey hxy)
  refine List.nodup_cons.mpr ⟨?_, hmap⟩
  intro hbase
  obtain ⟨e, he, heq⟩ := List.mem_map.mp hbase
  obtain ⟨hmem, himp⟩ := mem_fromJoinEntries he
  have hbmem : (kBaseTableRef, kBaseTableAlias) ∈ st.get .ATTRIBUTE := by
    obtain ⟨t, ht, _⟩ := hInv.attrShape
    rw [ht]
    exact List.mem_cons_self _ _
  obtain ⟨h1, h2⟩ := hInv.aliasInj e.1 .ATTRIBUTE (e.2.1, e.2.2) (kBaseTableRef, kBaseTableAlias)
    hmem hbmem heq
  have hk := himp h1
  rw [hk] at h2
  exact absurd h2 (by decide)

theorem slotBound_init {a : AtomType} {k : String} :
    slotBound initBuilder a k ↔ (a = .ATTRIBUTE ∧ k = kBaseTableRef) := by
  cases a <;> simp [slotBound, initBuilder, Builder.get, lookupKey, kBaseTableRef] <;>
    constructor <;> intro h <;> simp_all <;> split_ifs at h <;> simp_all


/-! Section: Final-state characterization of one compilation -/

theorem compile_final {e : ResolvedExpr} {w : String} {st' : Builder}
    (h : visitExpr initBuilder e = .ok (w, st')) :
    Inv st' ∧
    (∀ a kk, slotBound st' a kk ↔
      ((a = .ATTRIBUTE ∧ kk = kBaseTableRef) ∨
        ∃ c ∈ columnsOf e, joinConceptOf c = some (a, kk))) := by
  obtain ⟨frags, hcols⟩ := visitExpr_columns e _ _ _ h
  obtain ⟨hInv', _, hslot, _⟩ := visitColumns_sound _ _ _ _ Inv_init hcols
  refine ⟨hInv', fun a kk => ?_⟩
  rw [hslot, slotBound_init]

theorem mem_joinConcepts_compile {e : ResolvedExpr} {w : String} {st' : Builder}
    (h : visitExpr initBuilder e = .ok (w, st')) (a : AtomType) (kk : String) :
    (a, kk) ∈ joinConcepts st' ↔ ∃ c ∈ columnsOf e, joinConceptOf c = some (a, kk) := by
  obtain ⟨_, hslot⟩ := compile_final h
  rw [mem_joinConcepts]
  constructor
  · rintro ⟨hsb, himp⟩
    rcases (hslot a kk).mp hsb with ⟨ha, hk⟩ | hc
    · exfalso
      have := himp ha
      rw [this] at hk
      exact absurd hk (by decide)
    · exact hc
  · rintro ⟨c, hc, hjc⟩
    exact ⟨(hslot a kk).mpr (Or.inr ⟨c, hc, hjc⟩), (joinConceptOf_conditions hjc).1⟩

theorem conceptFragment_congr {c c' : ColumnRef} {a : AtomType} {kk v : String}
    (h : joinConceptOf c = some (a, kk)) (h' : joinConceptOf c' = some (a, kk)) :
    conceptFragment c v = conceptFragment c' v := by
  obtain ⟨s, n⟩ := c
  obtain ⟨s', n'⟩ := c'
  cases s <;> cases s' <;> simp only [conceptFragment, ColumnRef.isStruct, if_true, if_false]
  · exfalso
    obtain ⟨-, ha, -⟩ := joinConceptOf_nonstruct h
    obtain ⟨-, hs'⟩ := joinConceptOf_struct h'
    exact structAtomOf_ne_attribute hs' ha
  · exfalso
    obtain ⟨-, ha, -⟩ := joinConceptOf_nonstruct h'
    obtain ⟨-, hs⟩ := joinConceptOf_struct h
    exact structAtomOf_ne_attribute hs ha

theorem isPrefixList_head {c1 c2 : Char} {p1 p2 s : List Char}
    (h1 : isPrefixList (c1 :: p1) s = true) (h2 : isPrefixList (c2 :: p2) s = true) :
    c1 = c2 := by
  cases s with
  | nil => simp [isPrefixList] at h1
  | cons b t =>
      simp only [isPrefixList, Bool.and_eq_true, decide_eq_true_eq] at h1 h2
      rw [h1.1, h2.1]

theorem structAtomOf_of_propPfx {nm : String}
    (h : strStartsWith nm "properties_" = true) :
    structAtomOf nm = some .PROPERTY := by
  have hc : strStartsWith nm "contexts_" = false := by
    cases hcc : strStartsWith nm "contexts_"
    · rfl
    · exfalso
      have h1 : isPrefixList ('p' :: "roperties_".data) nm.data = true := h
      have h2 : isPrefixList ('c' :: "ontexts_".data) nm.data = true := hcc
      have := isPrefixList_head h1 h2
      exact absurd this (by decide)
  simp [structAtomOf, hc, h]

theorem joinConceptOf_propPfx {nm : String}
    (h : strStartsWith nm "properties_" = true) :
    joinConceptOf ⟨true, nm⟩ = some (AtomType.PROPERTY, nm) := by
  simp [joinConceptOf, structAtomOf_of_propPfx h]

theorem isPrefixList_head2 {c1 c2 d1 d2 : Char} {p1 p2 s : List Char}
    (h1 : isPrefixList (c1 :: c2 :: p1) s = true)
    (h2 : isPrefixList (d1 :: d2 :: p2) s = true) : c1 = d1 ∧ c2 = d2 := by
  cases s with
  | nil => simp [isPrefixList] at h1
  | cons b t =>
      cases t with
      | nil =>
          simp [isPrefixList] at h1
      | cons b2 t2 =>
          simp only [isPrefixList, Bool.and_eq_true, decide_eq_true_eq] at h1 h2
          exact ⟨h1.1.trans h2.1.symm, h1.2.1.trans h2.2.1.symm⟩

theorem structAtomOf_of_customPfx {nm : String}
    (h : strStartsWith nm "custom_properties_" = true) :
    structAtomOf nm = some .CUSTOM_PROPERTY := by
  have hc : strStartsWith nm "contexts_" = false := by
    cases hcc : strStartsWith nm "contexts_"
    · rfl
    · exfalso
      have h1 : isPrefixList ('c' :: 'u' :: "stom_properties_".data) nm.data = true := h
      have h2 : isPrefixList ('c' :: 'o' :: "ntexts_".data) nm.data = true := hcc
      have := (isPrefixList_head2 h1 h2).2
      exact absurd this (by decide)
  have hp : strStartsWith nm "properties_" = false := by
    cases hpp : strStartsWith nm "properties_"
    · rfl
    · exfalso
      have h1 : isPrefixList ('c' :: "ustom_properties_".data) nm.data = true := h
      have h2 : isPrefixList ('p' :: "roperties_".data) nm.data = true := hpp
      have := isPrefixList_head h1 h2
      exact absurd this (by decide)
  simp [structAtomOf, hc, hp, h]

theorem joinConceptOf_customPfx {nm : String}
    (h : strStartsWith nm "custom_properties_" = true) :
    joinConceptOf ⟨true, nm⟩ = some (AtomType.CUSTOM_PROPERTY, nm) := by
  simp [joinConceptOf, structAtomOf_of_customPfx h]

/-! Section: The claims -/

/-- Claim C1: for every predicate tree that mentions the same neighbor concept
(same relationship kind and same concept key) N times, exactly one join
fragment for that concept appears in the rendered FROM clause, and all N
references render to the same alias text in the WHERE clause. -/
theorem claim_C1 {e : ResolvedExpr} {w : String} {st' : Builder} {a : AtomType} {kk : String}
    (h : visitExpr initBuilder e = .ok (w, st'))
    (hmention : ∃ c ∈ columnsOf e, joinConceptOf c = some (a, kk)) :
    @List.count (AtomType × String) instBEqOfDecidableEq (a, kk) (joinConcepts st') = 1 ∧
    (∀ frags, visitColumns initBuilder (columnsOf e) = .ok (frags, st') →
      ∀ p ∈ (columnsOf e).zip frags, ∀ q ∈ (columnsOf e).zip frags,
        joinConceptOf p.1 = some (a, kk) → joinConceptOf q.1 = some (a, kk) →
        p.2 = q.2) := by
  obtain ⟨frags0, hcols0⟩ := visitExpr_columns e _ _ _ h
  obtain ⟨hInv', _, hslot, _⟩ := visitColumns_sound _ _ _ _ Inv_init hcols0
  constructor
  · refine List.count_eq_one_of_mem (joinConcepts_nodup hInv') ?_
    exact (mem_joinConcepts_compile h a kk).mpr hmention
  · intro frags hcols p hp q hq hpj hqj
    obtain ⟨_, _, _, hforall⟩ := visitColumns_sound _ _ _ _ Inv_init hcols
    obtain ⟨p1, p2⟩ := p
    obtain ⟨q1, q2⟩ := q
    obtain ⟨v, hv, hfv⟩ := List.forall₂_zip hforall hp a kk hpj
    obtain ⟨v', hv', hfv'⟩ := List.forall₂_zip hforall hq a kk hqj
    rw [hv] at hv'
    injection hv' with hvv
    subst hvv
    rw [hfv, hfv']
    exact conceptFragment_congr hpj hqj

/-- Claim C1, instantiated: a predicate mentioning the property concept
`properties_p` twice yields exactly one join entry for it. -/
theorem claim_C1_witness :
    visitExpr initBuilder
        (.binaryOp "AND"
          (.binaryOp ">" (.column ⟨true, "properties_p"⟩) (.literal "0"))
          (.binaryOp "<" (.column ⟨true, "properties_p"⟩) (.literal "1"))) =
      .ok ("((table_1 > 0) AND (table_1 < 1))",
        ⟨[("", "table_0")], [], [("properties_p", "table_1")], [], [], [], [], 1⟩) ∧
    @List.count (AtomType × String) instBEqOfDecidableEq (AtomType.PROPERTY, "properties_p")
      (joinConcepts
        (⟨[("", "table_0")], [], [("properties_p", "table_1")], [], [], [], [], 1⟩ :
          Builder)) = 1 :=
  ⟨rfl,
    (@claim_C1
      (.binaryOp "AND"
        (.binaryOp ">" (.column ⟨true, "properties_p"⟩) (.literal "0"))
        (.binaryOp "<" (.column ⟨true, "properties_p"⟩) (.literal "1")))
      "((table_1 > 0) AND (table_1 < 1))"
      ⟨[("", "table_0")], [], [("properties_p", "table_1")], [], [], [], [], 1⟩
      AtomType.PROPERTY "properties_p" rfl (by decide)).1⟩

/-- Claim C2: for every predicate tree mentioning K distinct concepts, the
rendered FROM clause has exactly K join entries, hence K+1 table fragments
with the base table, and the K+1 aliases (base alias plus the join aliases)
are pairwise distinct strings. -/
theorem claim_C2 {e : ResolvedExpr} {w : String} {st' : Builder}
    (h : visitExpr initBuilder e = .ok (w, st')) :
    (fromJoinEntries st').length = ((columnsOf e).filterMap joinConceptOf).dedup.length ∧
    (∀ rk : RecordKind,
      ([getBaseNodeTable rk kBaseTableAlias] ++
          (fromJoinEntries st').map (renderJoinEntry rk kBaseTableAlias)).length =
        ((columnsOf e).filterMap joinConceptOf).dedup.length + 1) ∧
    (kBaseTableAlias :: (fromJoinEntries st').map (fun en => en.2.2)).Nodup := by
  obtain ⟨hInv', _⟩ := compile_final h
  have hmemiff : ∀ x : AtomType × String,
      x ∈ joinConcepts st' ↔ x ∈ ((columnsOf e).filterMap joinConceptOf).dedup := by
    intro x
    obtain ⟨a, kk⟩ := x
    rw [mem_joinConcepts_compile h a kk, List.mem_dedup, List.mem_filterMap]
  have hperm := (List.perm_ext_iff_of_nodup (joinConcepts_nodup hInv')
    (List.nodup_dedup _)).mpr hmemiff
  have hlen1 : (joinConcepts st').length = (fromJoinEntries st').length :=
    List.length_map _ _
  have hlen : (fromJoinEntries st').length =
      ((columnsOf e).filterMap joinConceptOf).dedup.length := by
    rw [← hlen1]
    exact hperm.length_eq
  refine ⟨hlen, ?_, aliases_nodup hInv'⟩
  intro rk
  simp only [List.length_append, List.length_map, List.length_singleton, hlen]
  omega

/-- Claim C2, instantiated: a predicate mentioning two distinct property
concepts yields two join entries. -/
theorem claim_C2_witness :
    visitExpr initBuilder
        (.binaryOp "AND"
          (.binaryOp ">" (.column ⟨true, "properties_accuracy"⟩) (.literal "0.9"))
          (.binaryOp "=" (.column ⟨true, "custom_properties_owner"⟩)
            (.literal "\"alice\""))) =
      .ok ("((table_1 > 0.9) AND (table_2 = \"alice\"))",
        ⟨[("", "table_0")], [], [("properties_accuracy", "table_1")],
          [("custom_properties_owner", "table_2")], [], [], [], 2⟩) ∧
    (fromJoinEntries
        (⟨[("", "table_0")], [], [("properties_accuracy", "table_1")],
          [("custom_properties_owner", "table_2")], [], [], [], 2⟩ : Builder)).length =
      ((columnsOf
          (.binaryOp "AND"
            (.binaryOp ">" (.column ⟨true, "properties_accuracy"⟩) (.literal "0.9"))
            (.binaryOp "=" (.column ⟨true, "custom_properties_owner"⟩)
              (.literal "\"alice\"")))).filterMap joinConceptOf).dedup.length :=
  ⟨rfl,
    (@claim_C2
      (.binaryOp "AND"
        (.binaryOp ">" (.column ⟨true, "properties_accuracy"⟩) (.literal "0.9"))
        (.binaryOp "=" (.column ⟨true, "custom_properties_owner"⟩)
          (.literal "\"alice\"")))
      "((table_1 > 0.9) AND (table_2 = \"alice\"))"
      ⟨[("", "table_0")], [], [("properties_accuracy", "table_1")],
        [("custom_properties_owner", "table_2")], [], [], [], 2⟩ rfl).1⟩

/-- Claim C3 (divergence record): compiling a `contexts_*` struct reference
for the `Context` record kind does not fail; the visitor returns OK, the
context join template for `Context` is the empty string, and the rendered
FROM clause silently contains no join while the WHERE clause references the
allocated alias `table_1`. -/
theorem claim_C3 :
    compileQuery .Context
        (.binaryOp "=" (.column ⟨true, "contexts_pipeline"⟩) (.literal "\"p1\"")) =
      .ok ("Context AS table_0 ", "(table_1 = \"p1\")") ∧
    getContextJoinTemplate .Context = "" ∧
    getContextJoinTable .Context "table_0" "table_1" = "" ∧
    (fromJoinEntries
        (⟨[("", "table_0")], [("contexts_pipeline", "table_1")], [], [], [], [], [], 1⟩ :
          Builder)).map (renderJoinEntry .Context "table_0") = [""] :=
  ⟨rfl, rfl, rfl, rfl⟩

/-- Claim C4 (counterexample): visiting `properties_accuracy` registers the
alias binding under the full reference name, not under the name minus the
`properties_` prefix — the lookup under `accuracy` is `none` while the lookup
under `properties_accuracy` holds the fresh alias. -/
theorem claim_C4_counterexample :
    (visitResolvedExpressionColumn initBuilder ⟨true, "properties_accuracy"⟩).toOption.map
        (fun r => (lookupKey (r.2.get .PROPERTY) "accuracy",
                   lookupKey (r.2.get .PROPERTY) "properties_accuracy")) =
      some (none, some "table_1") := rfl

/-- Claim C4 (amended): for a struct reference carrying the `properties_`
(respectively `custom_properties_`) prefix, the binding is registered in the
PROPERTY (respectively CUSTOM_PROPERTY) map under the full reference name
(the prefix is stripped only later, by the FROM-clause assembly); a second
reference to the same name reuses the binding and fragment unchanged,
bindings of other names are untouched, and any binding stored under a
different name holds a different alias. -/
theorem claim_C4 {st : Builder} (hInv : Inv st) {nm f : String} {st₁ : Builder}
    (a : AtomType)
    (hpfx : (a = .PROPERTY ∧ strStartsWith nm "properties_" = true) ∨
      (a = .CUSTOM_PROPERTY ∧ strStartsWith nm "custom_properties_" = true))
    (h : visitResolvedExpressionColumn st ⟨true, nm⟩ = .ok (f, st₁)) :
    (∃ v, lookupKey (st₁.get a) nm = some v ∧ f = toIdentifierLiteral v ∧
      ∀ nm' v', nm' ≠ nm → lookupKey (st₁.get a) nm' = some v' → v' ≠ v) ∧
    visitResolvedExpressionColumn st₁ ⟨true, nm⟩ = .ok (f, st₁) ∧
    (∀ nm', nm' ≠ nm →
      lookupKey (st₁.get a) nm' = lookupKey (st.get a) nm') := by
  have hjc : joinConceptOf ⟨true, nm⟩ = some (a, nm) := by
    rcases hpfx with ⟨ha, hpp⟩ | ⟨ha, hpp⟩
    · subst ha
      exact joinConceptOf_propPfx hpp
    · subst ha
      exact joinConceptOf_customPfx hpp
  obtain ⟨hInv₁, hpres, hslot, hfrag⟩ := visitCol_step hInv h
  obtain ⟨v, hv, hfv⟩ := hfrag a nm hjc
  have hfcf : f = toIdentifierLiteral v := hfv
  refine ⟨⟨v, hv, hfcf, ?_⟩, ?_, ?_⟩
  · intro nm' v' hne hv' heq
    subst heq
    obtain ⟨-, hkeq⟩ := hInv₁.aliasInj a a (nm', v') (nm, v')
      (lookupKey_mem hv') (lookupKey_mem hv) rfl
    exact hne hkeq
  · have hre := @visitCol_concept_found st₁ ⟨true, nm⟩ a nm v hjc hv
    rw [hfv]
    exact hre
  · intro nm' hne
    cases hl' : lookupKey (st.get a) nm' with
    | some u => exact hpres a nm' u hl'
    | none =>
        cases hl₁ : lookupKey (st₁.get a) nm' with
        | none => rfl
        | some u =>
            exfalso
            have hsb : slotBound st₁ a nm' := by simp [slotBound, hl₁]
            rcases (hslot a nm').mp hsb with hsbst | hjc'
            · simp [slotBound, hl'] at hsbst
            · rw [hjc] at hjc'
              injection hjc' with hp
              injection hp with hx hk
              exact hne hk.symm

/-- Claim C4 amended, instantiated on both prefixes: re-visiting
`properties_accuracy` (respectively `custom_properties_owner`) from the state
its first visit produced reuses the same fragment and state. -/
theorem claim_C4_witness :
    Inv initBuilder ∧
    visitResolvedExpressionColumn
        (⟨[("", "table_0")], [], [("properties_accuracy", "table_1")], [], [], [], [], 1⟩ :
          Builder) ⟨true, "properties_accuracy"⟩ =
      .ok ("table_1",
        ⟨[("", "table_0")], [], [("properties_accuracy", "table_1")], [], [], [], [], 1⟩) ∧
    visitResolvedExpressionColumn
        (⟨[("", "table_0")], [], [], [("custom_properties_owner", "table_1")], [], [], [], 1⟩ :
          Builder) ⟨true, "custom_properties_owner"⟩ =
      .ok ("table_1",
        ⟨[("", "table_0")], [], [], [("custom_properties_owner", "table_1")], [], [], [], 1⟩) :=
  ⟨Inv_init,
    (@claim_C4 initBuilder Inv_init "properties_accuracy" "table_1"
      ⟨[("", "table_0")], [], [("properties_accuracy", "table_1")], [], [], [], [], 1⟩
      .PROPERTY (Or.inl ⟨rfl, by decide⟩) rfl).2.1,
    (@claim_C4 initBuilder Inv_init "custom_properties_owner" "table_1"
      ⟨[("", "table_0")], [], [], [("custom_properties_owner", "table_1")], [], [], [], 1⟩
      .CUSTOM_PROPERTY (Or.inr ⟨rfl, by decide⟩) rfl).2.1⟩

/-- Claim C5: compiling the same predicate tree with two independently
constructed compiler instances (both fresh from the constructor) yields
byte-identical FROM and WHERE text. -/
theorem claim_C5 (k : RecordKind) (e : ResolvedExpr) (b1 b2 : Builder)
    (h1 : b1 = initBuilder) (h2 : b2 = initBuilder) :
    compileFromBuilder k b1 e = compileFromBuilder k b2 e := by
  subst h1
  subst h2
  rfl

/-- Claim C5, instantiated at a concrete predicate. -/
theorem claim_C5_witness :
    initBuilder = initBuilder ∧
    compileFromBuilder .Artifact initBuilder (.column ⟨false, "uri"⟩) =
      compileFromBuilder .Artifact initBuilder (.column ⟨false, "uri"⟩) :=
  ⟨rfl, claim_C5 .Artifact (.column ⟨false, "uri"⟩) initBuilder initBuilder rfl rfl⟩

set_option maxRecDepth 8192 in
/-- Claim C6: the Artifact compilation's context join template is the
Attribution-based one (joining Attribution on artifact_id), the Execution
compilation's is the Association-based one (joining Association on
execution_id), each template never mentions the other edge table, and the
two record kinds never use each other's template. -/
theorem claim_C6 :
    getContextJoinTemplate .Artifact = kContextJoinTableViaAttribution ∧
    getContextJoinTemplate .Execution = kContextJoinTableViaAssociation ∧
    containsSub kContextJoinTableViaAttribution
      "JOIN Attribution ON Context.id = Attribution.context_id" = true ∧
    containsSub kContextJoinTableViaAttribution "ON $0.id = $1.artifact_id" = true ∧
    containsSub kContextJoinTableViaAssociation
      "JOIN Association ON Context.id = Association.context_id" = true ∧
    containsSub kContextJoinTableViaAssociation "ON $0.id = $1.execution_id" = true ∧
    containsSub kContextJoinTableViaAttribution "Association" = false ∧
    containsSub kContextJoinTableViaAssociation "Attribution" = false ∧
    getContextJoinTemplate .Artifact ≠ getContextJoinTemplate .Execution :=
  ⟨rfl, rfl, by decide, by decide, by decide, by decide, by decide, by decide, by decide⟩

set_option maxRecDepth 8192 in
/-- Claim C7: the parent-context fragment is a self-join of Context through
ParentContext joined on ParentContext.parent_context_id, the child-context
fragment joins on ParentContext.context_id, and the two fragments are
oriented in opposite directions (neither contains the other's inner join
condition). -/
theorem claim_C7 :
    (∀ b c, getParentContextJoinTable b c =
        substitute kParentContextJoinTableViaParentContext [b, c]) ∧
    (∀ b c, getChildContextJoinTable b c =
        substitute kChildContextJoinTableViaParentContext [b, c]) ∧
    containsSub kParentContextJoinTableViaParentContext "FROM Context" = true ∧
    containsSub kParentContextJoinTableViaParentContext
      "JOIN ParentContext ON Context.id = ParentContext.parent_context_id" = true ∧
    containsSub kParentContextJoinTableViaParentContext
      "ON $0.id = $1.child_context_id" = true ∧
    containsSub kChildContextJoinTableViaParentContext "FROM Context" = true ∧
    containsSub kChildContextJoinTableViaParentContext
      "JOIN ParentContext ON Context.id = ParentContext.context_id" = true ∧
    containsSub kChildContextJoinTableViaParentContext
      "ON $0.id = $1.parent_context_id" = true ∧
    containsSub kParentContextJoinTableViaParentContext
      "JOIN ParentContext ON Context.id = ParentContext.context_id" = false ∧
    containsSub kChildContextJoinTableViaParentContext
      "JOIN ParentContext ON Context.id = ParentContext.parent_context_id" = false ∧
    kParentContextJoinTableViaParentContext ≠ kChildContextJoinTableViaParentContext :=
  ⟨fun b c => rfl, fun b c => rfl, by decide, by decide, by decide, by decide,
    by decide, by decide, by decide, by decide, by decide⟩

/-- Claim C8: a non-struct reference named `type` is treated as a reference to
the dedicated type-table slot — rendered `<type alias>.type`, registering the
slot so the FROM clause emits the type join — while every other non-struct
reference renders as the base alias, a dot, and the identifier-quoted
attribute name, leaving the state unchanged. -/
theorem claim_C8 {st : Builder} (hInv : Inv st) :
    (∀ nm : String, nm ≠ "type" →
      visitResolvedExpressionColumn st ⟨false, nm⟩ =
        .ok (toIdentifierLiteral kBaseTableAlias ++ "." ++ toIdentifierLiteral nm, st)) ∧
    (∃ v st₁, visitResolvedExpressionColumn st ⟨false, "type"⟩ =
        .ok (toIdentifierLiteral v ++ "." ++ toIdentifierLiteral kTypeTableRef, st₁) ∧
      lookupKey (st₁.get .ATTRIBUTE) kTypeTableRef = some v ∧
      (AtomType.ATTRIBUTE, kTypeTableRef, v) ∈ fromJoinEntries st₁) := by
  constructor
  · intro nm hne
    exact visitCol_attr rfl hne hInv.baseLookup
  · have hjc : joinConceptOf ⟨false, "type"⟩ = some (AtomType.ATTRIBUTE, kTypeTableRef) := rfl
    cases hlk : lookupKey (st.get .ATTRIBUTE) kTypeTableRef with
    | some v =>
        refine ⟨v, st, ?_, hlk, ?_⟩
        · exact visitCol_concept_found hjc hlk
        · simp [fromJoinEntries, hlk]
    | none =>
        have hnew : lookupKey
            (({ st.insertAtom .ATTRIBUTE kTypeTableRef (aliasName (st.aliasIndex + 1)) with
                  aliasIndex := st.aliasIndex + 1 } : Builder).get .ATTRIBUTE) kTypeTableRef =
              some (aliasName (st.aliasIndex + 1)) := by
          rw [get_insert_bump, if_pos rfl, lookupKey_append_of_none hlk]
          simp [lookupKey]
        refine ⟨aliasName (st.aliasIndex + 1), _, ?_, hnew, ?_⟩
        · exact visitCol_concept_fresh hjc hlk
        · simp [fromJoinEntries, hnew]

/-- Claim C8, instantiated: `uri` renders from the base alias with no state
change. -/
theorem claim_C8_witness :
    Inv initBuilder ∧
    visitResolvedExpressionColumn initBuilder ⟨false, "uri"⟩ =
      .ok (toIdentifierLiteral kBaseTableAlias ++ "." ++ toIdentifierLiteral "uri",
        initBuilder) :=
  ⟨Inv_init, (claim_C8 Inv_init).1 "uri" (by decide)⟩

/-- Claim C9: a struct-typed column reference whose name has none of the six
recognized relationship stems makes the whole compilation abort with the
terminal unimplemented error, for every record kind — no SQL pair is
produced. -/
theorem claim_C9 (k : RecordKind) {e : ResolvedExpr} (c : ColumnRef)
    (hc : c ∈ columnsOf e) (hs : c.isStruct = true) (hn : structAtomOf c.name = none) :
    compileQuery k e = .error kUnimplementedMessage := by
  unfold compileQuery compileFromBuilder
  rw [visitExpr_error_of_badcol e initBuilder c hc hs hn]

/-- Claim C9, instantiated at the struct reference `foo_bar`. -/
theorem claim_C9_witness :
    (⟨true, "foo_bar"⟩ : ColumnRef) ∈
      columnsOf (.binaryOp "=" (.column ⟨true, "foo_bar"⟩) (.literal "1")) ∧
    compileQuery .Artifact (.binaryOp "=" (.column ⟨true, "foo_bar"⟩) (.literal "1")) =
      .error kUnimplementedMessage :=
  ⟨by decide, claim_C9 .Artifact ⟨true, "foo_bar"⟩ (by decide) (by decide) (by decide)⟩

/-- Claim C10: after any successful compilation, every key stored in the
PROPERTY (resp. CUSTOM_PROPERTY) alias map carries the `properties_` (resp.
`custom_properties_`) prefix, so its length is at least the prefix length and
the fixed-length prefix stripping in `GetFromClause` never reads past the
key's end. -/
theorem claim_C10 {e : ResolvedExpr} {w : String} {st' : Builder}
    (h : visitExpr initBuilder e = .ok (w, st')) :
    (∀ p ∈ st'.get .PROPERTY, strStartsWith p.1 "properties_" = true ∧
      ("properties_" : String).length ≤ p.1.length) ∧
    (∀ p ∈ st'.get .CUSTOM_PROPERTY, strStartsWith p.1 "custom_properties_" = true ∧
      ("custom_properties_" : String).length ≤ p.1.length) := by
  obtain ⟨hInv', _⟩ := compile_final h
  constructor
  · intro p hp
    have hpfx := hInv'.propPfx p hp
    exact ⟨hpfx, strStartsWith_length hpfx⟩
  · intro p hp
    have hpfx := hInv'.customPfx p hp
    exact ⟨hpfx, strStartsWith_length hpfx⟩

/-- Claim C10, instantiated: the stored property key from a concrete
compilation carries its prefix and is long enough for the strip. -/
theorem claim_C10_witness :
    visitExpr initBuilder
        (.binaryOp ">" (.column ⟨true, "properties_accuracy"⟩) (.literal "0.9")) =
      .ok ("(table_1 > 0.9)",
        ⟨[("", "table_0")], [], [("properties_accuracy", "table_1")], [], [], [], [], 1⟩) ∧
    (strStartsWith "properties_accuracy" "properties_" = true ∧
      ("properties_" : String).length ≤ ("properties_accuracy" : String).length) :=
  ⟨rfl,
    (@claim_C10
      (.binaryOp ">" (.column ⟨true, "properties_accuracy"⟩) (.literal "0.9"))
      "(table_1 > 0.9)"
      ⟨[("", "table_0")], [], [("properties_accuracy", "table_1")], [], [], [], [], 1⟩
      rfl).1 ("properties_accuracy", "table_1") (by decide)⟩

end MLMD
